import Mathlib

/-!
Verification development for `openhands/events/observation/commands.py`.

Modelling conventions:
* A Python `str` is modeled as `List Char` (Unicode scalar values; lone
  surrogates, which CPython strings can hold, are outside the model and are
  mapped through `Char.ofNat`'s default fallback — no claim here depends on
  them).
* Machine integers do not occur (Python ints are unbounded), so numbers are
  `Int`/`Nat`.
* Fallible Python code (code that can raise) is modeled with `Except Unit`.
* All recursion is structural (fuel-based where the source loops consume
  input non-uniformly), so every definition evaluates by kernel reduction.
-/

abbrev PyStr := List Char

def toL (s : String) : PyStr := s.toList

/-- The ASCII/Latin-1 portion of Python `str.isspace` (used by `str.strip`).
Further Unicode space characters exist in CPython; no input in this
development contains them. -/
def pyIsSpace (c : Char) : Bool :=
  c = ' ' || c = '\t' || c = '\n' || c = '\r' || c = '\x0b' || c = '\x0c' ||
  c = '\x1c' || c = '\x1d' || c = '\x1e' || c = '\x1f' || c = '\x85' || c = '\xa0'

/-- Python `str.strip()` with no argument: drop whitespace at both ends. -/
def pyStrip (s : PyStr) : PyStr :=
  ((s.dropWhile pyIsSpace).reverse.dropWhile pyIsSpace).reverse

/-- `CMD_OUTPUT_PS1_BEGIN = '\n###PS1JSON###\n'` from the source. -/
def CMD_OUTPUT_PS1_BEGIN : PyStr := toL ("\n###PS1JSON###\n")

/-- `CMD_OUTPUT_PS1_END = '\n###PS1END###'` from the source. -/
def CMD_OUTPUT_PS1_END : PyStr := toL ("\n###PS1END###")

/-- The BEGIN literal of `CMD_OUTPUT_METADATA_PS1_REGEX`: the regex is built
from `CMD_OUTPUT_PS1_BEGIN.strip()`. -/
def PS1_BEGIN_LIT : PyStr := pyStrip CMD_OUTPUT_PS1_BEGIN

/-- The END literal of `CMD_OUTPUT_METADATA_PS1_REGEX`: built from
`CMD_OUTPUT_PS1_END.strip()`. -/
def PS1_END_LIT : PyStr := pyStrip CMD_OUTPUT_PS1_END

/-- `MAX_CMD_OUTPUT_SIZE: int = 30000` from the source. -/
def MAX_CMD_OUTPUT_SIZE : Nat := 30000

/-- One `re.Match` of `CMD_OUTPUT_METADATA_PS1_REGEX`: the index in the text
at which the match starts, and `group(1)` (the lazily captured content
between the two sentinel literals). -/
structure Region where
  start : Nat
  content : PyStr
deriving DecidableEq, Repr

/-- Index of the earliest occurrence of the END sentinel literal as a prefix
of a suffix of `s`; this is where the lazy group `(.*?)` stops. -/
def findEnd : PyStr → Option Nat
  | [] => none
  | c :: rest =>
    if PS1_END_LIT.isPrefixOf (c :: rest) then some 0
    else (findEnd rest).map (· + 1)

/-- The scanning loop of `re.finditer` for the pattern
`^###PS1JSON###(.*?)###PS1END###` with `re.DOTALL | re.MULTILINE`:
at each position that starts a line (`atStart`), if the BEGIN literal
matches and the END literal occurs later, emit the match (with the lazily
minimal group) and resume scanning right after the match (matches never
overlap); otherwise advance one character.  The character right after a
match is preceded by `'#'` (the last END character), never by a newline,
hence `false` for the resumed `atStart`. -/
def psScan : Nat → PyStr → Nat → Bool → List Region
  | 0, _, _, _ => []
  | _+1, [], _, _ => []
  | fuel+1, c :: rest, pos, atStart =>
    if atStart && PS1_BEGIN_LIT.isPrefixOf (c :: rest) then
      match findEnd ((c :: rest).drop PS1_BEGIN_LIT.length) with
      | some j =>
        let content := ((c :: rest).drop PS1_BEGIN_LIT.length).take j
        let mlen := PS1_BEGIN_LIT.length + j + PS1_END_LIT.length
        Region.mk pos content :: psScan fuel ((c :: rest).drop mlen) (pos + mlen) false
      | none => psScan fuel rest (pos + 1) (c == '\n')
    else psScan fuel rest (pos + 1) (c == '\n')

/-- `CMD_OUTPUT_METADATA_PS1_REGEX.finditer(t)` as a list of matches in text
order (`^` of a MULTILINE pattern matches at position 0 or right after a
newline). -/
def finditer (t : PyStr) : List Region := psScan (t.length + 1) t 0 true

/-- JSON whitespace as accepted by Python's `json` module. -/
def isJsonWs (c : Char) : Bool := c = ' ' || c = '\t' || c = '\n' || c = '\r'

def skipJWs (s : PyStr) : PyStr := s.dropWhile isJsonWs

/-- A value produced by `json.loads`.  Numbers written without fraction or
exponent become Python `int` (arbitrary precision, `JVal.int`); numbers with
a fraction or exponent go through Python `float` and are modeled exactly as
the decimal `m * 10 ^ e` (`JVal.dec`); the non-standard constants accepted
by Python's parser (`Infinity`, `-Infinity`, `NaN`) are explicit. -/
inductive JVal where
  | null
  | bool (b : Bool)
  | str (s : PyStr)
  | int (n : Int)
  | dec (m : Int) (e : Int)
  | inf (neg : Bool)
  | nan
  | arr (xs : List JVal)
  | obj (kvs : List (PyStr × JVal))
deriving Repr

def hexVal (c : Char) : Option Nat :=
  if '0' ≤ c ∧ c ≤ '9' then some (c.toNat - '0'.toNat)
  else if 'a' ≤ c ∧ c ≤ 'f' then some (c.toNat - 'a'.toNat + 10)
  else if 'A' ≤ c ∧ c ≤ 'F' then some (c.toNat - 'A'.toNat + 10)
  else none

def hex4 : PyStr → Option (Nat × PyStr)
  | a :: b :: c :: d :: rest =>
    match hexVal a, hexVal b, hexVal c, hexVal d with
    | some x, some y, some z, some w => some (((x * 16 + y) * 16 + z) * 16 + w, rest)
    | _, _, _, _ => none
  | _ => none

/-- JSON string escape characters (`\" \\ \/ \b \f \n \r \t`). -/
def escChar : Char → Option Char
  | '"' => some '"'
  | '\\' => some '\\'
  | '/' => some '/'
  | 'b' => some '\x08'
  | 'f' => some '\x0c'
  | 'n' => some '\n'
  | 'r' => some '\r'
  | 't' => some '\t'
  | _ => none

def jstrCons (c : Char) : Except Unit (PyStr × PyStr) → Except Unit (PyStr × PyStr)
  | Except.ok (cs, r) => Except.ok (c :: cs, r)
  | Except.error e => Except.error e

/-- Body of a JSON string, after the opening quote.  Python's decoder (in
strict mode, the default) rejects raw control characters below `0x20`;
`\uXXXX` escapes combine surrogate pairs and fall back to the lone code unit
otherwise (lone surrogates are collapsed by `Char.ofNat`'s fallback — see
the module comment). -/
def parseJStr : Nat → PyStr → Except Unit (PyStr × PyStr)
  | 0, _ => Except.error ()
  | fuel+1, s =>
    match s with
    | [] => Except.error ()
    | '"' :: rest => Except.ok ([], rest)
    | '\\' :: esc =>
      match esc with
      | [] => Except.error ()
      | 'u' :: e2 =>
        match hex4 e2 with
        | none => Except.error ()
        | some (n1, r1) =>
          if 0xD800 ≤ n1 ∧ n1 ≤ 0xDBFF then
            match r1 with
            | '\\' :: 'u' :: e3 =>
              match hex4 e3 with
              | some (n2, r2) =>
                if 0xDC00 ≤ n2 ∧ n2 ≤ 0xDFFF then
                  jstrCons (Char.ofNat (0x10000 + (n1 - 0xD800) * 0x400 + (n2 - 0xDC00)))
                    (parseJStr fuel r2)
                else jstrCons (Char.ofNat n1) (parseJStr fuel r1)
              | none => jstrCons (Char.ofNat n1) (parseJStr fuel r1)
            | _ => jstrCons (Char.ofNat n1) (parseJStr fuel r1)
          else jstrCons (Char.ofNat n1) (parseJStr fuel r1)
      | c :: r =>
        match escChar c with
        | some ec => jstrCons ec (parseJStr fuel r)
        | none => Except.error ()
    | c :: rest =>
      if c.toNat < 0x20 then Except.error ()
      else jstrCons c (parseJStr fuel rest)

def digitsVal (ds : PyStr) : Nat :=
  ds.foldl (fun acc c => acc * 10 + (c.toNat - '0'.toNat)) 0

/-- The fraction part `(\.\d+)?` of the JSON number regex: consumed only when
the dot is followed by at least one digit. -/
def parseFracPart : PyStr → PyStr × PyStr
  | '.' :: r =>
    let ds := r.takeWhile Char.isDigit
    if ds.isEmpty then ([], '.' :: r) else (ds, r.dropWhile Char.isDigit)
  | s => ([], s)

/-- The exponent part `([eE][-+]?\d+)?` of the JSON number regex; `none` when
absent (in which case nothing is consumed). -/
def parseExpPart : PyStr → Option (Bool × PyStr × PyStr)
  | e :: r =>
    if e = 'e' ∨ e = 'E' then
      let (sgn, r2) := match r with
        | '+' :: r3 => (false, r3)
        | '-' :: r3 => (true, r3)
        | _ => (false, r)
      let ds := r2.takeWhile Char.isDigit
      if ds.isEmpty then none else some (sgn, ds, r2.dropWhile Char.isDigit)
    else none
  | [] => none

/-- Build the value of a matched JSON number: pure-integer numerals become
Python `int`; a fraction or exponent makes Python call `float` on the match,
modeled as the exact decimal `m * 10 ^ e`. -/
def mkJsonNum (neg : Bool) (intDs fracDs : PyStr) (expVal : Option Int) : JVal :=
  let mAbs : Nat := digitsVal (intDs ++ fracDs)
  let m : Int := if neg then -(mAbs : Int) else (mAbs : Int)
  match expVal, fracDs with
  | none, [] => JVal.int m
  | _, _ => JVal.dec m ((expVal.getD 0) - (fracDs.length : Int))

def parseAfterInt (neg : Bool) (intDs : PyStr) (rest : PyStr) : JVal × PyStr :=
  let (fracDs, r1) := parseFracPart rest
  match parseExpPart r1 with
  | some (eneg, eds, r2) =>
    (mkJsonNum neg intDs fracDs
      (some (if eneg then -(digitsVal eds : Int) else (digitsVal eds : Int))), r2)
  | none =>
    if fracDs.isEmpty then (mkJsonNum neg intDs [] none, r1)
    else (mkJsonNum neg intDs fracDs none, r1)

/-- A JSON number per the regex `(-?(?:0|[1-9]\d*))(\.\d+)?([eE][-+]?\d+)?`
used by Python's decoder (leading zeros are excluded because `0` can only be
followed by a fraction or exponent). -/
def parseJNum (s : PyStr) : Except Unit (JVal × PyStr) :=
  let (neg, s1) := match s with
    | '-' :: r => (true, r)
    | _ => (false, s)
  match s1 with
  | [] => Except.error ()
  | c :: r =>
    if c = '0' then Except.ok (parseAfterInt neg (['0']) r)
    else if c.isDigit then
      Except.ok (parseAfterInt neg ((c :: r).takeWhile Char.isDigit)
        ((c :: r).dropWhile Char.isDigit))
    else Except.error ()

def matchLit (lit : PyStr) (v : JVal) (s : PyStr) : Except Unit (JVal × PyStr) :=
  if lit.isPrefixOf s then Except.ok (v, s.drop lit.length) else Except.error ()

/-- Parser modes: a JSON value; the inside of an object after `\x7b`; the
inside of an array after `[`; the member loop of an object (accumulator of
parsed pairs); the element loop of an array. -/
inductive PMode where
  | value
  | objBody
  | arrBody
  | members (acc : List (PyStr × JVal))
  | elems (acc : List JVal)

/-- Recursive-descent core of Python `json.loads` (strict mode, default
hooks: objects keep their pairs — later duplicates win on lookup —, numbers
per the decoder regex, the constants `NaN`/`Infinity`/`-Infinity` accepted).
Structurally recursive on fuel; every recursive call consumes input, so the
fuel passed by `json_loads` is never exhausted. -/
def parseCore : Nat → PMode → PyStr → Except Unit (JVal × PyStr)
  | 0, _, _ => Except.error ()
  | fuel+1, PMode.value, s =>
    match skipJWs s with
    | [] => Except.error ()
    | c :: rest =>
      if c = '"' then
        match parseJStr (rest.length + 1) rest with
        | Except.ok (cs, r) => Except.ok (JVal.str cs, r)
        | Except.error e => Except.error e
      else if c = '\x7b' then parseCore fuel PMode.objBody rest
      else if c = '[' then parseCore fuel PMode.arrBody rest
      else if c = 't' then matchLit (toL ("rue")) (JVal.bool true) rest
      else if c = 'f' then matchLit (toL ("alse")) (JVal.bool false) rest
      else if c = 'n' then matchLit (toL ("ull")) JVal.null rest
      else if c = 'N' then matchLit (toL ("aN")) JVal.nan rest
      else if c = 'I' then matchLit (toL ("nfinity")) (JVal.inf false) rest
      else if c = '-' then
        match rest with
        | d :: _ =>
          if d.isDigit then parseJNum (c :: rest)
          else matchLit (toL ("Infinity")) (JVal.inf true) rest
        | [] => Except.error ()
      else if c.isDigit then parseJNum (c :: rest)
      else Except.error ()
  | fuel+1, PMode.objBody, s =>
    match skipJWs s with
    | '\x7d' :: rest => Except.ok (JVal.obj [], rest)
    | s2 => parseCore fuel (PMode.members []) s2
  | fuel+1, PMode.members acc, s =>
    match s with
    | '"' :: rest =>
      match parseJStr (rest.length + 1) rest with
      | Except.error e => Except.error e
      | Except.ok (key, r1) =>
        match skipJWs r1 with
        | ':' :: r2 =>
          match parseCore fuel PMode.value r2 with
          | Except.error e => Except.error e
          | Except.ok (v, r3) =>
            match skipJWs r3 with
            | ',' :: r4 => parseCore fuel (PMode.members (acc ++ [(key, v)])) (skipJWs r4)
            | '\x7d' :: r4 => Except.ok (JVal.obj (acc ++ [(key, v)]), r4)
            | _ => Except.error ()
        | _ => Except.error ()
    | _ => Except.error ()
  | fuel+1, PMode.arrBody, s =>
    match skipJWs s with
    | ']' :: rest => Except.ok (JVal.arr [], rest)
    | s2 => parseCore fuel (PMode.elems []) s2
  | fuel+1, PMode.elems acc, s =>
    match parseCore fuel PMode.value s with
    | Except.error e => Except.error e
    | Except.ok (v, r1) =>
      match skipJWs r1 with
      | ',' :: r2 => parseCore fuel (PMode.elems (acc ++ [v])) r2
      | ']' :: r2 => Except.ok (JVal.arr (acc ++ [v]), r2)
      | _ => Except.error ()

/-- `json.loads`: parse one value, allow trailing JSON whitespace, reject
trailing data.  `Except.error` stands for `json.JSONDecodeError`. -/
def json_loads (s : PyStr) : Except Unit JVal :=
  match parseCore (2 * s.length + 2) PMode.value s with
  | Except.ok (v, rest) => if skipJWs rest = [] then Except.ok v else Except.error ()
  | Except.error e => Except.error e

/-- Whether `json.loads` succeeds (the `try` in `matches_ps1_metadata`). -/
def jsonValid (s : PyStr) : Bool :=
  match json_loads s with
  | Except.ok _ => true
  | Except.error _ => false

/-- The loop body of `CmdOutputMetadata.matches_ps1_metadata`: try
`json.loads(match.group(1).strip())`; on success append the match, on
`JSONDecodeError` log and continue with the remaining matches. -/
def matchLoop : List Region → List Region
  | [] => []
  | m :: ms => if jsonValid (pyStrip m.content) then m :: matchLoop ms else matchLoop ms

/-- `CmdOutputMetadata.matches_ps1_metadata`: all regex matches whose
captured group parses as JSON, in text order. -/
def matches_ps1_metadata (t : PyStr) : List Region := matchLoop (finditer t)

/-- Last-wins lookup in the pair list of a JSON object: Python's decoder
builds a `dict` from the pairs, so a duplicated key holds its last value. -/
def objGet (kvs : List (PyStr × JVal)) (key : PyStr) : Option JVal :=
  ((kvs.filter (fun kv => kv.fst == key)).getLast?).map (fun kv => kv.snd)

/-- The smallest magnitude at which CPython's correctly rounded
string/int-to-`float` conversion produces an infinity:
`2 ^ 1024 - 2 ^ 970` as a numeral (everything at least this large rounds
beyond the largest finite IEEE-754 double). -/
def FLOAT_OVERFLOW_BOUND : Nat := 179769313486231580793728971405303415079934132710037826936173778980444968292764750946649017977587207096330286416692887910946555547851940402630657488671505820681908902000708383676273854845817711531764475730270069855571366959622842914819860834936475292719074168444365510704342711559699508093042880177904174497792

/-- Whether the decimal `m * 10 ^ e` converts to an infinite `float`. -/
def decOverflow (m e : Int) : Bool :=
  if 0 ≤ e then decide (FLOAT_OVERFLOW_BOUND ≤ m.natAbs * 10 ^ e.toNat)
  else decide (FLOAT_OVERFLOW_BOUND * 10 ^ (-e).toNat ≤ m.natAbs)

/-- `int()` of the (finite) value `m * 10 ^ e`: truncation toward zero.
The intermediate IEEE-754 rounding of CPython's `float` is abstracted to
exact decimal arithmetic; the two agree on every value exercised in this
development (all are exactly representable doubles). -/
def decTrunc (m e : Int) : Int :=
  if 0 ≤ e then m * (10 : Int) ^ e.toNat
  else
    let q : Nat := m.natAbs / 10 ^ (-e).toNat
    if m < 0 then -(q : Int) else (q : Int)

/-- Result classification of a Python `float` call on a string. -/
inductive PyFloat where
  | finite (m : Int) (e : Int)
  | inf (neg : Bool)
  | nan
deriving DecidableEq, Repr

def toLowerStr (s : PyStr) : PyStr := s.map Char.toLower

/-- A run of ASCII digits in which single underscores may separate digits
(Python numeric-literal syntax accepted by `float(str)`). -/
def takePyDigits : Nat → PyStr → PyStr × PyStr
  | 0, s => ([], s)
  | _+1, [] => ([], [])
  | fuel+1, c :: rest =>
    if c.isDigit then
      match rest with
      | '_' :: d :: r2 =>
        if d.isDigit then
          let (ds, r3) := takePyDigits fuel (d :: r2)
          (c :: ds, r3)
        else ([c], rest)
      | _ =>
        let (ds, r3) := takePyDigits fuel rest
        (c :: ds, r3)
    else ([], c :: rest)

/-- Python `float(s)` for a string: strips whitespace, accepts an optional
sign, the keywords `inf`/`infinity`/`nan` case-insensitively, or a decimal
numeral `digits [. digits] [ (e|E) [sign] digits ]` (either the integer or
the fraction digits may be missing, not both), with underscores allowed
between digits.  Returns `none` where Python raises `ValueError`.
Overflow to infinity is detected later via `decOverflow` (CPython's
`float("1e400")` returns `inf` rather than raising). -/
def pyFloatOfString (s0 : PyStr) : Option PyFloat :=
  let s1 := pyStrip s0
  let (neg, s2) := match s1 with
    | '+' :: r => (false, r)
    | '-' :: r => (true, r)
    | _ => (false, s1)
  let low := toLowerStr s2
  if low = toL ("inf") ∨ low = toL ("infinity") then some (PyFloat.inf neg)
  else if low = toL ("nan") then some PyFloat.nan
  else
    let ip := takePyDigits (s2.length + 1) s2
    let intDs := ip.fst
    let fp := match ip.snd with
      | '.' :: rr => takePyDigits (rr.length + 1) rr
      | r1 => ([], r1)
    let fracDs := fp.fst
    if intDs.isEmpty ∧ fracDs.isEmpty then none
    else
      let mAbs : Nat := digitsVal (intDs ++ fracDs)
      let m : Int := if neg then -(mAbs : Int) else (mAbs : Int)
      match fp.snd with
      | [] => some (PyFloat.finite m (-(fracDs.length : Int)))
      | e :: r3 =>
        if e = 'e' ∨ e = 'E' then
          let (esgn, r4) := match r3 with
            | '+' :: rr => (false, rr)
            | '-' :: rr => (true, rr)
            | _ => (false, r3)
          let ep := takePyDigits (r4.length + 1) r4
          if ep.fst.isEmpty ∨ ¬ ep.snd.isEmpty then none
          else
            let ev : Int := if esgn then -(digitsVal ep.fst : Int) else (digitsVal ep.fst : Int)
            some (PyFloat.finite m (ev - (fracDs.length : Int)))
        else none

/-- Outcome of `int(float(str(x)))` under `except (ValueError, TypeError)`:
`ok n` (no exception), `minusOne` (a caught exception — the handler stores
−1), or `raised` (an uncaught exception, notably `OverflowError` from
`int()` of an infinite float, which the source does **not** catch). -/
inductive CoerceR where
  | ok (n : Int)
  | minusOne
  | raised
deriving DecidableEq, Repr

/-- `int(float(str(x)))` for each shape of JSON-decoded value `x`.
`str` of a float round-trips (`float(str(f)) == f`), so the `str`/`float`
detour is the identity on numeric values; `str` of the other shapes
(`True`, `None`, `[...]`, ...) never parses as a float, giving a caught
`ValueError`. -/
def int_float_str : JVal → CoerceR
  | JVal.str s =>
    match pyFloatOfString s with
    | none => CoerceR.minusOne
    | some (PyFloat.finite m e) =>
      if decOverflow m e then CoerceR.raised
      else CoerceR.ok (decTrunc m e)
    | some (PyFloat.inf _) => CoerceR.raised
    | some PyFloat.nan => CoerceR.minusOne
  | JVal.int n =>
    if decide (FLOAT_OVERFLOW_BOUND ≤ n.natAbs) then CoerceR.raised
    else CoerceR.ok n
  | JVal.dec m e =>
    if decOverflow m e then CoerceR.raised
    else CoerceR.ok (decTrunc m e)
  | JVal.inf _ => CoerceR.raised
  | JVal.nan => CoerceR.minusOne
  | JVal.bool _ => CoerceR.minusOne
  | JVal.null => CoerceR.minusOne
  | JVal.arr _ => CoerceR.minusOne
  | JVal.obj _ => CoerceR.minusOne

/-- Coercion of one of the two numeric metadata fields: absent key, a
resulting integer (−1 when the caught handler ran), or an uncaught raise. -/
inductive FieldCoerce where
  | absent
  | value (n : Int)
  | raise
deriving DecidableEq, Repr

def coerceField (kvs : List (PyStr × JVal)) (key : PyStr) : FieldCoerce :=
  match objGet kvs key with
  | none => FieldCoerce.absent
  | some v =>
    match int_float_str v with
    | CoerceR.ok n => FieldCoerce.value n
    | CoerceR.minusOne => FieldCoerce.value (-1)
    | CoerceR.raised => FieldCoerce.raise

def fieldVal : FieldCoerce → Int
  | FieldCoerce.absent => -1
  | FieldCoerce.value n => n
  | FieldCoerce.raise => -1

/-- The `CmdOutputMetadata` pydantic model: all fields with their source
types and defaults (`exit_code = pid = -1`, optional texts `None`, empty
prefix/suffix).  The source fields `prefix`/`suffix` are named
`prefixStr`/`suffixStr` here because `prefix` is a Lean keyword. -/
structure CmdOutputMetadata where
  exit_code : Int
  pid : Int
  username : Option PyStr
  hostname : Option PyStr
  working_dir : Option PyStr
  py_interpreter_path : Option PyStr
  prefixStr : PyStr
  suffixStr : PyStr
deriving DecidableEq, Repr

def defaultMetadata : CmdOutputMetadata :=
  CmdOutputMetadata.mk (-1) (-1) none none none none [] []

/-- pydantic validation of a `str | None` field from a JSON-decoded value:
a string or `None` (or an absent key, giving the default `None`) passes,
anything else is a `ValidationError` (pydantic's lax mode does not coerce
numbers to `str`). -/
def validateStrOpt : Option JVal → Except Unit (Option PyStr)
  | none => Except.ok none
  | some (JVal.str s) => Except.ok (some s)
  | some JVal.null => Except.ok none
  | some _ => Except.error ()

/-- pydantic validation of a plain `str` field (default `''`): only a
string passes; `None` or any other shape is a `ValidationError`. -/
def validateStr : Option JVal → Except Unit PyStr
  | none => Except.ok []
  | some (JVal.str s) => Except.ok s
  | some _ => Except.error ()

/-- `CmdOutputMetadata.from_ps1_match`, applied to the captured group of a
regex match: `json.loads` the group (a failure raises `JSONDecodeError`);
on a non-`dict` result the subsequent attribute/unpacking accesses raise
(`AttributeError`/`TypeError`); coerce `pid` then `exit_code` with
`int(float(str(.)))` under `except (ValueError, TypeError)` (an uncaught
`OverflowError` propagates, `Except.error` here); finally pydantic
validates the remaining fields (extra keys are ignored by default). -/
def from_ps1_match (content : PyStr) : Except Unit CmdOutputMetadata :=
  match json_loads content with
  | Except.error _ => Except.error ()
  | Except.ok (JVal.obj kvs) =>
    match coerceField kvs (toL ("pid")), coerceField kvs (toL ("exit_code")) with
    | FieldCoerce.raise, _ => Except.error ()
    | _, FieldCoerce.raise => Except.error ()
    | p, ec => do
      let username ← validateStrOpt (objGet kvs (toL ("username")))
      let hostname ← validateStrOpt (objGet kvs (toL ("hostname")))
      let working_dir ← validateStrOpt (objGet kvs (toL ("working_dir")))
      let py_interpreter_path ← validateStrOpt (objGet kvs (toL ("py_interpreter_path")))
      let pre ← validateStr (objGet kvs (toL ("prefix")))
      let suf ← validateStr (objGet kvs (toL ("suffix")))
      Except.ok (CmdOutputMetadata.mk (fieldVal ec) (fieldVal p)
        username hostname working_dir py_interpreter_path pre suf)
  | Except.ok _ => Except.error ()

/-- The fixed truncation marker line of `_maybe_truncate`. -/
def TRUNC_MARKER : PyStr := toL ("\n[... Observation truncated due to length ...]\n")

/-- Python `content[-half:]`: the last `half` characters — except that
`content[-0:]` is `content[0:]`, the whole string. -/
def pyTailSlice (half : Nat) (content : PyStr) : PyStr :=
  if half = 0 then content else content.drop (content.length - half)

/-- `CmdOutputObservation._maybe_truncate`: identity when the content fits,
otherwise first `max_size // 2` characters, the marker, and the
`content[-max_size // 2:]` tail slice. -/
def maybe_truncate (content : PyStr) (max_size : Nat) : PyStr :=
  if content.length ≤ max_size then content
  else content.take (max_size / 2) ++ TRUNC_MARKER ++ pyTailSlice (max_size / 2) content

/-- `CmdOutputObservation` (the fields the claims touch: `content` as held
by the parent `Observation`, the command string, the metadata, and the
`hidden` flag). -/
structure CmdOutputObservation where
  content : PyStr
  command : PyStr
  metadata : CmdOutputMetadata
  hidden : Bool
deriving DecidableEq, Repr

/-- `CmdOutputObservation.__init__`: content is truncated before being
passed to the parent unless `hidden` (`truncate = not hidden`).  The
`dict`-shaped metadata argument (identical reconstruction, see
`CmdOutputMetadata.fromDict`) and the legacy `exit_code`/`command_id`
keyword overrides are not modeled — no claim involves them. -/
def CmdOutputObservation.init (content command : PyStr)
    (metadata : Option CmdOutputMetadata) (hidden : Bool) : CmdOutputObservation :=
  let content2 := if hidden then content else maybe_truncate content MAX_CMD_OUTPUT_SIZE
  CmdOutputObservation.mk content2 command (metadata.getD defaultMetadata) hidden

def CmdOutputObservation.exit_code (o : CmdOutputObservation) : Int := o.metadata.exit_code

def CmdOutputObservation.error (o : CmdOutputObservation) : Bool := o.exit_code != 0

def CmdOutputObservation.success (o : CmdOutputObservation) : Bool := !o.error

/-- The plain key-value mapping `CmdOutputMetadata.model_dump()` produces
(same eight fields, plain values). -/
structure MetadataDict where
  exit_code : Int
  pid : Int
  username : Option PyStr
  hostname : Option PyStr
  working_dir : Option PyStr
  py_interpreter_path : Option PyStr
  prefixStr : PyStr
  suffixStr : PyStr
deriving DecidableEq, Repr

def CmdOutputMetadata.model_dump (m : CmdOutputMetadata) : MetadataDict :=
  MetadataDict.mk m.exit_code m.pid m.username m.hostname m.working_dir
    m.py_interpreter_path m.prefixStr m.suffixStr

/-- `CmdOutputMetadata(**d)` on a well-typed dump: pydantic revalidates the
already-valid values, reproducing the record. -/
def CmdOutputMetadata.fromDict (d : MetadataDict) : CmdOutputMetadata :=
  CmdOutputMetadata.mk d.exit_code d.pid d.username d.hostname d.working_dir
    d.py_interpreter_path d.prefixStr d.suffixStr

/-- The `metadata` argument of the result constructors:
`dict[str, Any] | CmdOutputMetadata | None`. -/
inductive MetadataArg where
  | dict (d : MetadataDict)
  | model (m : CmdOutputMetadata)
  | pyNone
deriving DecidableEq, Repr

/-- `ParallelCmdResult`: result of a single command in a parallel
execution. -/
structure ParallelCmdResult where
  command : PyStr
  content : PyStr
  metadata : CmdOutputMetadata
deriving DecidableEq, Repr

/-- `ParallelCmdResult.__init__`: stores `command` and `content` verbatim
(no truncation happens here), and normalizes the metadata argument.  The
legacy `exit_code`/`pid` keyword overrides are not modeled. -/
def ParallelCmdResult.init (command content : PyStr) (metadata : MetadataArg) :
    ParallelCmdResult :=
  ParallelCmdResult.mk command content
    (match metadata with
     | MetadataArg.dict d => CmdOutputMetadata.fromDict d
     | MetadataArg.model m => m
     | MetadataArg.pyNone => defaultMetadata)

def ParallelCmdResult.exit_code (r : ParallelCmdResult) : Int := r.metadata.exit_code

def ParallelCmdResult.error (r : ParallelCmdResult) : Bool := r.exit_code != 0

def ParallelCmdResult.success (r : ParallelCmdResult) : Bool := !r.error

/-- The mapping `ParallelCmdResult.to_dict()` produces (`metadata` is
optional because `from_dict` reads it with `data.get('metadata')`). -/
structure PCRDict where
  command : PyStr
  content : PyStr
  metadata : Option MetadataDict
deriving DecidableEq, Repr

def ParallelCmdResult.to_dict (r : ParallelCmdResult) : PCRDict :=
  PCRDict.mk r.command r.content (some (CmdOutputMetadata.model_dump r.metadata))

def ParallelCmdResult.from_dict (d : PCRDict) : ParallelCmdResult :=
  ParallelCmdResult.init d.command d.content
    (match d.metadata with
     | some md => MetadataArg.dict md
     | none => MetadataArg.pyNone)

/-- An element of the `results` argument of
`ParallelCmdOutputObservation.__init__`: `ParallelCmdResult | dict`. -/
inductive ResultArg where
  | dict (d : PCRDict)
  | result (r : ParallelCmdResult)
deriving DecidableEq, Repr

/-- `ParallelCmdOutputObservation`: output of multiple commands run in
parallel. -/
structure ParallelCmdOutputObservation where
  content : PyStr
  results : List ParallelCmdResult
  hidden : Bool
deriving DecidableEq, Repr

/-- `ParallelCmdOutputObservation.__init__`: the aggregate `content` is
truncated unless `hidden`; the `results` list is normalized element-wise
(dicts through `from_dict`) in the given order. -/
def ParallelCmdOutputObservation.init (content : PyStr) (results : List ResultArg)
    (hidden : Bool) : ParallelCmdOutputObservation :=
  let content2 := if hidden then content else maybe_truncate content MAX_CMD_OUTPUT_SIZE
  ParallelCmdOutputObservation.mk content2
    (results.map (fun a => match a with
      | ResultArg.dict d => ParallelCmdResult.from_dict d
      | ResultArg.result r => r)) hidden

def ParallelCmdOutputObservation.error (o : ParallelCmdOutputObservation) : Bool :=
  o.results.any (fun r => r.error)

def ParallelCmdOutputObservation.success (o : ParallelCmdOutputObservation) : Bool :=
  o.results.all (fun r => r.success)

def ParallelCmdOutputObservation.get_results_by_exit_code
    (o : ParallelCmdOutputObservation) (code : Int) : List ParallelCmdResult :=
  o.results.filter (fun r => r.exit_code == code)

def ParallelCmdOutputObservation.get_successful_results
    (o : ParallelCmdOutputObservation) : List ParallelCmdResult :=
  o.get_results_by_exit_code 0

def ParallelCmdOutputObservation.get_failed_results
    (o : ParallelCmdOutputObservation) : List ParallelCmdResult :=
  o.results.filter (fun r => r.exit_code != 0)

/-- Modelled from the spec: the parallel orchestrator itself
(`ParallelCmdRunAction` execution) is not part of the sources under `src/`
— only its result models are.  Configuration of one batch call: the ordered
command list and `max_concurrency`. -/
structure OrchConfig where
  cmds : List PyStr
  max_concurrency : Nat
deriving Repr

/-- Modelled from the spec: orchestrator state — `nextIdx` counts commands
already dispatched (FIFO admission in input order), `running` holds the
indices currently executing, `slots` is the fixed-size index-addressed
result array (`none` = not finished). -/
structure OrchState where
  nextIdx : Nat
  running : List Nat
  slots : List (Option ParallelCmdResult)
deriving Repr

/-- Modelled from the spec: one scheduler transition.  `dispatch` admits
the next queued command when a concurrency token is free (counting
semaphore of size `max_concurrency`); `finish` completes any currently
running command — in any order, modelling arbitrary interleaving — and
writes its result into its own slot. -/
inductive OrchStep (exec : Nat → ParallelCmdResult) (cfg : OrchConfig) :
    OrchState → OrchState → Prop where
  | dispatch (s : OrchState) (h1 : s.nextIdx < cfg.cmds.length)
      (h2 : s.running.length < cfg.max_concurrency) :
      OrchStep exec cfg s
        (OrchState.mk (s.nextIdx + 1) (s.running ++ [s.nextIdx]) s.slots)
  | finish (s : OrchState) (i : Nat) (hi : i ∈ s.running) :
      OrchStep exec cfg s
        (OrchState.mk s.nextIdx (s.running.erase i) (s.slots.set i (some (exec i))))

/-- Modelled from the spec: the initial state of a batch call. -/
def initState (cfg : OrchConfig) : OrchState :=
  OrchState.mk 0 [] (List.replicate cfg.cmds.length none)

/-- Modelled from the spec: states reachable during one batch call. -/
inductive Reach (exec : Nat → ParallelCmdResult) (cfg : OrchConfig) : OrchState → Prop where
  | init : Reach exec cfg (initState cfg)
  | step (s s' : OrchState) : Reach exec cfg s → OrchStep exec cfg s s' → Reach exec cfg s'

/-- Modelled from the spec: a batch call returns once every command was
dispatched and none is still running. -/
def Terminal (cfg : OrchConfig) (s : OrchState) : Prop :=
  s.nextIdx = cfg.cmds.length ∧ s.running = []

/-- Modelled from the spec: the result list assembled from the slots. -/
def collect (s : OrchState) : List ParallelCmdResult :=
  s.slots.filterMap id

/-- Modelled from the spec: the inductive invariant of the orchestrator —
bounded concurrency (the counting semaphore), dispatch counter in range,
fixed slot count, running indices already dispatched, and every dispatched
command either still running or finished with its own result in its own
slot. -/
structure OrchInv (exec : Nat → ParallelCmdResult) (cfg : OrchConfig) (s : OrchState) : Prop where
  run_le : s.running.length ≤ cfg.max_concurrency
  next_le : s.nextIdx ≤ cfg.cmds.length
  slots_len : s.slots.length = cfg.cmds.length
  run_lt : ∀ i ∈ s.running, i < s.nextIdx
  done : ∀ j, j < s.nextIdx → j ∈ s.running ∨ s.slots[j]? = some (some (exec j))

/-- Per-command results of the concrete two-command orchestrator run used
as a witness below. -/
def execW : Nat → ParallelCmdResult :=
  fun i =>
    if i = 0 then ParallelCmdResult.mk (toL ("echo a")) (toL ("a")) defaultMetadata
    else ParallelCmdResult.mk (toL ("echo b")) (toL ("b")) defaultMetadata

/-- A concrete batch configuration: two commands, `max_concurrency = 1`. -/
def cfgW : OrchConfig := OrchConfig.mk [toL ("echo a"), toL ("echo b")] 1

theorem matchLoop_eq_filter (ms : List Region) :
    matchLoop ms = ms.filter (fun m => jsonValid (pyStrip m.content)) := by
  induction ms with
  | nil => rfl
  | cons m ms ih =>
    by_cases h : jsonValid (pyStrip m.content) = true
    · simp [matchLoop, h, ih, List.filter_cons]
    · simp [matchLoop, h, ih, List.filter_cons]

/-- C8: for every content string whose length is at most the size limit,
`_maybe_truncate` returns the content unchanged. -/
theorem maybe_truncate_id_of_le (content : PyStr) (max_size : Nat)
    (h : content.length ≤ max_size) : maybe_truncate content max_size = content := by
  simp [maybe_truncate, h]

theorem maybe_truncate_id_witness :
    (toL ("ab")).length ≤ MAX_CMD_OUTPUT_SIZE ∧
      maybe_truncate (toL ("ab")) MAX_CMD_OUTPUT_SIZE = toL ("ab") :=
  ⟨by decide, maybe_truncate_id_of_le (toL ("ab")) MAX_CMD_OUTPUT_SIZE (by decide)⟩

/-- C2 (counterexample): at the odd size limit `5` and the 6-character
content `"abcdef"`, the truncated string's length is
`2 * (5 / 2) + len(marker) = 51`, not `5 + len(marker) = 52`. -/
theorem maybe_truncate_length_counterexample :
    (maybe_truncate (toL ("abcdef")) 5).length ≠ 5 + TRUNC_MARKER.length := by
  decide

/-- C2 (amended): for content longer than `max_size`, `_maybe_truncate`
returns the first `max_size // 2` characters, the fixed marker, and the
`content[-max_size // 2:]` tail; when `max_size // 2 > 0` the tail is the
last `max_size // 2` characters and the length is
`2 * (max_size // 2) + len(marker)` — equal to `max_size + len(marker)`
exactly when `max_size` is even (as the default 30000 is); when
`max_size // 2 = 0` the head is empty and the whole content follows the
marker. -/
theorem maybe_truncate_structure (content : PyStr) (max_size : Nat)
    (h : max_size < content.length) :
    maybe_truncate content max_size =
      content.take (max_size / 2) ++ TRUNC_MARKER ++ pyTailSlice (max_size / 2) content ∧
    (0 < max_size / 2 →
      maybe_truncate content max_size =
        content.take (max_size / 2) ++ TRUNC_MARKER ++
          content.drop (content.length - max_size / 2) ∧
      (maybe_truncate content max_size).length = 2 * (max_size / 2) + TRUNC_MARKER.length) ∧
    (max_size / 2 = 0 → maybe_truncate content max_size = TRUNC_MARKER ++ content) ∧
    (max_size % 2 = 0 → 2 ≤ max_size →
      (maybe_truncate content max_size).length = max_size + TRUNC_MARKER.length) := by
  have hnot : ¬ content.length ≤ max_size := Nat.not_le.mpr h
  have hle2 : max_size / 2 ≤ content.length :=
    le_trans (Nat.div_le_self _ _) (le_of_lt h)
  have hlen : 0 < max_size / 2 →
      (maybe_truncate content max_size).length = 2 * (max_size / 2) + TRUNC_MARKER.length := by
    intro hpos
    have hhalf : max_size / 2 ≠ 0 := Nat.pos_iff_ne_zero.mp hpos
    simp only [maybe_truncate, if_neg hnot, pyTailSlice, if_neg hhalf, List.length_append,
      List.length_take, List.length_drop]
    omega
  refine ⟨by simp [maybe_truncate, hnot], fun hpos => ⟨?_, hlen hpos⟩, fun h0 => ?_,
    fun heven h2 => ?_⟩
  · have hhalf : max_size / 2 ≠ 0 := Nat.pos_iff_ne_zero.mp hpos
    simp [maybe_truncate, hnot, pyTailSlice, hhalf]
  · simp [maybe_truncate, hnot, pyTailSlice, h0]
  · have hpos : 0 < max_size / 2 := Nat.div_pos h2 (by norm_num)
    rw [hlen hpos]
    omega

theorem maybe_truncate_structure_witness :
    4 < (toL ("abcdef")).length ∧
      maybe_truncate (toL ("abcdef")) 4 =
        (toL ("abcdef")).take 2 ++ TRUNC_MARKER ++ (toL ("abcdef")).drop 4 ∧
      (maybe_truncate (toL ("abcdef")) 4).length = 4 + TRUNC_MARKER.length := by
  have h := maybe_truncate_structure (toL ("abcdef")) 4 (by decide)
  refine ⟨by decide, ?_, h.2.2.2 (by decide) (by decide)⟩
  have h2 := (h.2.1 (by decide)).1
  simpa using h2

/-- C3 (counterexample): in the batch path, a per-command content string
longer than the size limit is attached to `ParallelCmdResult` verbatim —
it is not the truncated string. -/
theorem parallel_result_content_not_truncated :
    (ParallelCmdResult.init (toL ("cmd")) (List.replicate (MAX_CMD_OUTPUT_SIZE + 1) 'a')
        MetadataArg.pyNone).content ≠
      maybe_truncate (List.replicate (MAX_CMD_OUTPUT_SIZE + 1) 'a') MAX_CMD_OUTPUT_SIZE := by
  intro heq
  have hc : (ParallelCmdResult.init (toL ("cmd"))
      (List.replicate (MAX_CMD_OUTPUT_SIZE + 1) 'a') MetadataArg.pyNone).content =
      List.replicate (MAX_CMD_OUTPUT_SIZE + 1) 'a' := rfl
  rw [hc] at heq
  have h1 : (List.replicate (MAX_CMD_OUTPUT_SIZE + 1) 'a').length = MAX_CMD_OUTPUT_SIZE + 1 :=
    List.length_replicate _ _
  have hnot : ¬ (List.replicate (MAX_CMD_OUTPUT_SIZE + 1) 'a').length ≤ MAX_CMD_OUTPUT_SIZE := by
    rw [h1]; omega
  have hhalf : ¬ MAX_CMD_OUTPUT_SIZE / 2 = 0 := by decide
  rw [maybe_truncate, if_neg hnot, pyTailSlice, if_neg hhalf] at heq
  have hm : TRUNC_MARKER.length = 47 := by decide
  have hlen := congrArg List.length heq
  simp only [List.length_append, List.length_take, List.length_drop, h1, hm] at hlen
  have hmax : MAX_CMD_OUTPUT_SIZE = 30000 := rfl
  rw [hmax] at hlen
  omega

/-- C3 (amended): the single-command path truncates content at construction
unless `hidden`; the batch path truncates only the aggregate observation
content (unless `hidden`), while each `ParallelCmdResult`'s per-command
content is attached verbatim, with no truncation and no `hidden` flag at
that level. -/
theorem truncation_application_points (c cmd : PyStr) (md : Option CmdOutputMetadata)
    (ma : MetadataArg) (rs : List ResultArg) :
    (CmdOutputObservation.init c cmd md false).content =
        maybe_truncate c MAX_CMD_OUTPUT_SIZE ∧
    (CmdOutputObservation.init c cmd md true).content = c ∧
    (ParallelCmdResult.init cmd c ma).content = c ∧
    (ParallelCmdOutputObservation.init c rs false).content =
        maybe_truncate c MAX_CMD_OUTPUT_SIZE ∧
    (ParallelCmdOutputObservation.init c rs true).content = c :=
  ⟨rfl, rfl, rfl, rfl, rfl⟩

/-- C5: for a batch observation, `error` holds iff some member result has
non-zero exit code and `success` holds iff every member has exit code zero;
for a single-command observation, `error` iff `exit_code ≠ 0` and `success`
iff not `error`. -/
theorem error_success_exit_code_iff (o : ParallelCmdOutputObservation)
    (c : CmdOutputObservation) :
    (o.error = true ↔ ∃ r ∈ o.results, r.exit_code ≠ 0) ∧
    (o.success = true ↔ ∀ r ∈ o.results, r.exit_code = 0) ∧
    (c.error = true ↔ c.exit_code ≠ 0) ∧
    (c.success = true ↔ ¬ c.error = true) := by
  refine ⟨?_, ?_, ?_, ?_⟩
  · simp [ParallelCmdOutputObservation.error, ParallelCmdResult.error]
  · simp [ParallelCmdOutputObservation.success, ParallelCmdResult.success,
      ParallelCmdResult.error]
  · simp [CmdOutputObservation.error]
  · simp [CmdOutputObservation.success]

/-- C6: `from_dict (to_dict r)` reproduces a `ParallelCmdResult` exactly —
the record itself and, field by field, its command, content, and all eight
metadata fields. -/
theorem parallel_result_roundtrip (r : ParallelCmdResult) :
    ParallelCmdResult.from_dict (ParallelCmdResult.to_dict r) = r ∧
    (ParallelCmdResult.from_dict (ParallelCmdResult.to_dict r)).command = r.command ∧
    (ParallelCmdResult.from_dict (ParallelCmdResult.to_dict r)).content = r.content ∧
    (ParallelCmdResult.from_dict (ParallelCmdResult.to_dict r)).metadata.exit_code =
      r.metadata.exit_code ∧
    (ParallelCmdResult.from_dict (ParallelCmdResult.to_dict r)).metadata.pid = r.metadata.pid ∧
    (ParallelCmdResult.from_dict (ParallelCmdResult.to_dict r)).metadata.username =
      r.metadata.username ∧
    (ParallelCmdResult.from_dict (ParallelCmdResult.to_dict r)).metadata.hostname =
      r.metadata.hostname ∧
    (ParallelCmdResult.from_dict (ParallelCmdResult.to_dict r)).metadata.working_dir =
      r.metadata.working_dir ∧
    (ParallelCmdResult.from_dict (ParallelCmdResult.to_dict r)).metadata.py_interpreter_path =
      r.metadata.py_interpreter_path ∧
    (ParallelCmdResult.from_dict (ParallelCmdResult.to_dict r)).metadata.prefixStr =
      r.metadata.prefixStr ∧
    (ParallelCmdResult.from_dict (ParallelCmdResult.to_dict r)).metadata.suffixStr =
      r.metadata.suffixStr :=
  ⟨rfl, rfl, rfl, rfl, rfl, rfl, rfl, rfl, rfl, rfl, rfl⟩

/-- C9: `get_results_by_exit_code code` is the subsequence (result order) of
exactly the members whose exit code is `code`; `get_successful_results` is
`get_results_by_exit_code 0`; `get_failed_results` is the subsequence of
exactly the members with non-zero exit code. -/
theorem filter_results_by_exit_code_spec (o : ParallelCmdOutputObservation) (code : Int) :
    List.Sublist (o.get_results_by_exit_code code) o.results ∧
    (∀ r, r ∈ o.get_results_by_exit_code code ↔ r ∈ o.results ∧ r.exit_code = code) ∧
    o.get_successful_results = o.get_results_by_exit_code 0 ∧
    List.Sublist o.get_failed_results o.results ∧
    (∀ r, r ∈ o.get_failed_results ↔ r ∈ o.results ∧ r.exit_code ≠ 0) := by
  refine ⟨List.filter_sublist _, fun r => ?_, rfl, List.filter_sublist _, fun r => ?_⟩
  · simp [ParallelCmdOutputObservation.get_results_by_exit_code]
  · simp [ParallelCmdOutputObservation.get_failed_results]

/-- C1: `matches_ps1_metadata` returns exactly the regex matches whose
captured group parses as JSON (a failing region is dropped without
aborting the scan — the result is the in-order subsequence of valid
matches), and a text with two valid blocks around one malformed block
yields exactly those two matches.  The scan is a total function: no input
raises. -/
theorem matches_ps1_metadata_valid_blocks :
    (∀ t : PyStr, List.Sublist (matches_ps1_metadata t) (finditer t) ∧
      ∀ r, r ∈ matches_ps1_metadata t ↔
        r ∈ finditer t ∧ jsonValid (pyStrip r.content) = true) ∧
    matches_ps1_metadata (toL ("###PS1JSON###\n\x7b\"a\": 1\x7d\n###PS1END###\n###PS1JSON###\nnope\n###PS1END###\n###PS1JSON###\n\x7b\"b\": 2\x7d\n###PS1END###\n")) =
      [Region.mk 0 (toL ("\n\x7b\"a\": 1\x7d\n")), Region.mk 68 (toL ("\n\x7b\"b\": 2\x7d\n"))] := by
  constructor
  · intro t
    rw [matches_ps1_metadata, matchLoop_eq_filter]
    exact ⟨List.filter_sublist _, fun r => by simp⟩
  · decide

theorem psScan_start_mem (fuel : Nat) : ∀ (s : PyStr) (pos : Nat) (atStart : Bool) (r : Region),
    r ∈ psScan fuel s pos atStart →
    (atStart = true ∧ r.start = pos) ∨
      (pos < r.start ∧ s[r.start - pos - 1]? = some '\n') := by
  induction fuel with
  | zero => intro s pos aS r hr; simp [psScan] at hr
  | succ fuel ih =>
    intro s pos aS r hr
    match s with
    | [] => simp [psScan] at hr
    | c :: rest =>
      have hadv : r ∈ psScan fuel rest (pos + 1) (c == '\n') →
          (aS = true ∧ r.start = pos) ∨
            (pos < r.start ∧ (c :: rest)[r.start - pos - 1]? = some '\n') := by
        intro hr2
        rcases ih rest (pos + 1) (c == '\n') r hr2 with ⟨hb, hs⟩ | ⟨hlt, hget⟩
        · right
          refine ⟨by omega, ?_⟩
          have h0 : r.start - pos - 1 = 0 := by omega
          have hc : c = '\n' := by simpa using hb
          rw [h0, hc]
          simp
        · right
          refine ⟨by omega, ?_⟩
          have hidx : r.start - pos - 1 = (r.start - (pos + 1) - 1) + 1 := by omega
          rw [hidx, List.getElem?_cons_succ]
          exact hget
      simp only [psScan] at hr
      split at hr
      case isTrue hcond =>
        split at hr
        case h_1 j hEnd =>
          rcases List.mem_cons.mp hr with heq | htail
          · left
            refine ⟨?_, by rw [heq]⟩
            simp only [Bool.and_eq_true] at hcond
            exact hcond.1
          · rcases ih _ _ _ r htail with ⟨hfalse, _⟩ | ⟨hlt, hget⟩
            · exact Bool.noConfusion hfalse
            · right
              refine ⟨by omega, ?_⟩
              rw [List.getElem?_drop] at hget
              have hidx2 : PS1_BEGIN_LIT.length + j + PS1_END_LIT.length +
                  (r.start - (pos + (PS1_BEGIN_LIT.length + j + PS1_END_LIT.length)) - 1) =
                  r.start - pos - 1 := by omega
              rw [hidx2] at hget
              exact hget
        case h_2 hEnd => exact hadv hr
      case isFalse hcond => exact hadv hr

/-- C10: a match is only returned when its BEGIN sentinel starts a line —
every returned region starts at position 0 or right after a newline; a
region whose BEGIN sentinel is preceded by a non-newline character on the
same line is not returned even when its content is valid JSON. -/
theorem begin_sentinel_requires_line_start :
    (∀ (t : PyStr) (r : Region), r ∈ matches_ps1_metadata t →
      r.start = 0 ∨ t[r.start - 1]? = some '\n') ∧
    matches_ps1_metadata (toL ("x###PS1JSON###\n\x7b\x7d\n###PS1END###")) = [] := by
  constructor
  · intro t r hr
    rw [matches_ps1_metadata, matchLoop_eq_filter] at hr
    have hr2 : r ∈ finditer t := (List.mem_filter.mp hr).1
    rcases psScan_start_mem (t.length + 1) t 0 true r hr2 with ⟨_, h0⟩ | ⟨hlt, hget⟩
    · left; exact h0
    · right
      have hi : r.start - 0 - 1 = r.start - 1 := by omega
      rw [hi] at hget
      exact hget
  · decide

theorem begin_sentinel_witness :
    (Region.mk 3 (toL ("\n\x7b\x7d\n"))).start = 0 ∨
      (toL ("ab\n###PS1JSON###\n\x7b\x7d\n###PS1END###"))[(Region.mk 3 (toL ("\n\x7b\x7d\n"))).start - 1]? =
        some '\n' :=
  begin_sentinel_requires_line_start.1 _ _ (by decide)

theorem except_bind_ok {α β : Type} {x : Except Unit α} {f : α → Except Unit β} {b : β}
    (h : (x >>= f) = Except.ok b) : ∃ a, x = Except.ok a ∧ f a = Except.ok b := by
  cases x with
  | ok a => exact ⟨a, rfl, h⟩
  | error e => exact Except.noConfusion h

theorem doblock_fields (kvs : List (PyStr × JVal)) (p ec : FieldCoerce)
    (md : CmdOutputMetadata)
    (hok : (do
      let username ← validateStrOpt (objGet kvs (toL ("username")))
      let hostname ← validateStrOpt (objGet kvs (toL ("hostname")))
      let working_dir ← validateStrOpt (objGet kvs (toL ("working_dir")))
      let py_interpreter_path ← validateStrOpt (objGet kvs (toL ("py_interpreter_path")))
      let pre ← validateStr (objGet kvs (toL ("prefix")))
      let suf ← validateStr (objGet kvs (toL ("suffix")))
      Except.ok (CmdOutputMetadata.mk (fieldVal ec) (fieldVal p)
        username hostname working_dir py_interpreter_path pre suf)) = Except.ok md) :
    md.exit_code = fieldVal ec ∧ md.pid = fieldVal p := by
  obtain ⟨a1, h1, hok⟩ := except_bind_ok hok
  obtain ⟨a2, h2, hok⟩ := except_bind_ok hok
  obtain ⟨a3, h3, hok⟩ := except_bind_ok hok
  obtain ⟨a4, h4, hok⟩ := except_bind_ok hok
  obtain ⟨a5, h5, hok⟩ := except_bind_ok hok
  obtain ⟨a6, h6, hok⟩ := except_bind_ok hok
  cases Except.ok.inj hok
  exact ⟨rfl, rfl⟩

/-- C4 (counterexample): the sentinel-delimited block
`\x7b"exit_code": Infinity\x7d` parses as JSON — `matches_ps1_metadata`
accepts it — yet `from_ps1_match` raises (an `OverflowError` from
`int(float('inf'))`, which `except (ValueError, TypeError)` does not
catch) instead of producing a `CommandMetadata` with `exit_code = -1`. -/
theorem coercion_infinity_counterexample :
    jsonValid (pyStrip (toL ("\x7b\"exit_code\": Infinity\x7d"))) = true ∧
    from_ps1_match (toL ("\x7b\"exit_code\": Infinity\x7d")) = Except.error () := by
  exact ⟨rfl, rfl⟩

/-- C4 (amended): `from_ps1_match` coerces `pid` and `exit_code` via
float-then-int conversion (string `"0"` gives `0`, `"12.0"` gives `12`);
on a coercion failure raising `ValueError` or `TypeError` (e.g.
`exit_code = "N/A"`) the constructed field equals −1; a coercion failure
raising `OverflowError` (an infinite float value, e.g. JSON `Infinity`)
propagates instead, so no `CommandMetadata` is constructed from such a
block; in every successfully constructed `CommandMetadata`, `exit_code`
and `pid` are integers (here by type). -/
theorem from_ps1_match_coercion (content : PyStr) (kvs : List (PyStr × JVal))
    (md : CmdOutputMetadata)
    (hjson : json_loads content = Except.ok (JVal.obj kvs))
    (hok : from_ps1_match content = Except.ok md) :
    md.exit_code = fieldVal (coerceField kvs (toL ("exit_code"))) ∧
    md.pid = fieldVal (coerceField kvs (toL ("pid"))) ∧
    (∀ v, objGet kvs (toL ("exit_code")) = some v →
      int_float_str v = CoerceR.minusOne → md.exit_code = -1) ∧
    (∀ v, objGet kvs (toL ("pid")) = some v →
      int_float_str v = CoerceR.minusOne → md.pid = -1) ∧
    (∀ v, objGet kvs (toL ("exit_code")) = some v →
      int_float_str v = CoerceR.raised → False) ∧
    from_ps1_match (toL ("\x7b\"pid\": \"0\", \"exit_code\": \"12.0\"\x7d")) =
      Except.ok (CmdOutputMetadata.mk 12 0 none none none none [] []) := by
  have hmain : md.exit_code = fieldVal (coerceField kvs (toL ("exit_code"))) ∧
      md.pid = fieldVal (coerceField kvs (toL ("pid"))) ∧
      coerceField kvs (toL ("pid")) ≠ FieldCoerce.raise ∧
      coerceField kvs (toL ("exit_code")) ≠ FieldCoerce.raise := by
    rw [from_ps1_match, hjson] at hok
    cases hp : coerceField kvs (toL ("pid")) <;>
      cases he : coerceField kvs (toL ("exit_code")) <;>
        simp only [hp, he] at hok
    all_goals
      first
      | exact Except.noConfusion hok
      | (have hf := doblock_fields kvs _ _ md hok
         exact ⟨hf.1, hf.2, by simp, by simp⟩)
  obtain ⟨hec, hpid, hpr, her⟩ := hmain
  refine ⟨hec, hpid, ?_, ?_, ?_, rfl⟩
  · intro v hv hiv
    have hcf : coerceField kvs (toL ("exit_code")) = FieldCoerce.value (-1) := by
      simp [coerceField, hv, hiv]
    rw [hec, hcf]
    rfl
  · intro v hv hiv
    have hcf : coerceField kvs (toL ("pid")) = FieldCoerce.value (-1) := by
      simp [coerceField, hv, hiv]
    rw [hpid, hcf]
    rfl
  · intro v hv hiv
    exact her (by simp [coerceField, hv, hiv])

theorem from_ps1_match_coercion_witness :
    json_loads (toL ("\x7b\"exit_code\": \"N/A\"\x7d")) =
      Except.ok (JVal.obj [(toL ("exit_code"), JVal.str (toL ("N/A")))]) ∧
    from_ps1_match (toL ("\x7b\"exit_code\": \"N/A\"\x7d")) =
      Except.ok (CmdOutputMetadata.mk (-1) (-1) none none none none [] []) ∧
    (CmdOutputMetadata.mk (-1) (-1) none none none none [] []).exit_code = -1 := by
  refine ⟨rfl, rfl, ?_⟩
  have h := from_ps1_match_coercion (toL ("\x7b\"exit_code\": \"N/A\"\x7d"))
    [(toL ("exit_code"), JVal.str (toL ("N/A")))]
    (CmdOutputMetadata.mk (-1) (-1) none none none none [] []) rfl rfl
  exact h.2.2.1 (JVal.str (toL ("N/A"))) rfl rfl

theorem map_result_id (rs : List ParallelCmdResult) :
    List.map (fun a => match a with
      | ResultArg.dict d => ParallelCmdResult.from_dict d
      | ResultArg.result r => r) (List.map ResultArg.result rs) = rs := by
  induction rs with
  | nil => rfl
  | cons r rs ih => simpa using ih

theorem reach_inv (exec : Nat → ParallelCmdResult) (cfg : OrchConfig) (s : OrchState)
    (h : Reach exec cfg s) : OrchInv exec cfg s := by
  induction h with
  | init =>
    refine ⟨?_, ?_, ?_, ?_, ?_⟩
    · simp [initState]
    · simp [initState]
    · simp [initState]
    · intro i hi
      simp [initState] at hi
    · intro j hj
      simp [initState] at hj
  | step s s' hr hstep ih =>
    cases hstep with
    | dispatch h1 h2 =>
      refine ⟨?_, ?_, ?_, ?_, ?_⟩
      · dsimp only
        simp only [List.length_append, List.length_cons, List.length_nil]
        omega
      · dsimp only
        omega
      · exact ih.slots_len
      · intro i hi
        dsimp only at hi ⊢
        rcases List.mem_append.mp hi with hi2 | hi2
        · exact Nat.lt_succ_of_lt (ih.run_lt i hi2)
        · simp only [List.mem_singleton] at hi2
          omega
      · intro j hj
        dsimp only at hj ⊢
        rcases Nat.lt_or_ge j s.nextIdx with hj2 | hj2
        · rcases ih.done j hj2 with hrun | hfill
          · exact Or.inl (List.mem_append.mpr (Or.inl hrun))
          · exact Or.inr hfill
        · have hje : j = s.nextIdx := by omega
          subst hje
          exact Or.inl (List.mem_append.mpr (Or.inr (by simp)))
    | finish i hi =>
      refine ⟨?_, ?_, ?_, ?_, ?_⟩
      · dsimp only
        have hle := List.length_erase_of_mem hi
        have := ih.run_le
        omega
      · exact ih.next_le
      · dsimp only
        simp [ih.slots_len]
      · intro j hj
        dsimp only at hj ⊢
        exact ih.run_lt j (List.mem_of_mem_erase hj)
      · intro j hj
        dsimp only at hj ⊢
        rcases ih.done j hj with hrun | hfill
        · by_cases hij : j = i
          · subst hij
            right
            have hlt : j < s.slots.length := by
              rw [ih.slots_len]
              exact Nat.lt_of_lt_of_le (ih.run_lt j hrun) ih.next_le
            rw [List.getElem?_set_self hlt]
          · exact Or.inl ((List.mem_erase_of_ne hij).mpr hrun)
        · right
          by_cases hij : j = i
          · subst hij
            have hlt : j < s.slots.length := by
              by_contra hge
              rw [List.getElem?_eq_none (Nat.le_of_not_lt hge)] at hfill
              exact Option.noConfusion hfill
            rw [List.getElem?_set_self hlt]
          · rw [List.getElem?_set_ne (Ne.symm hij)]
            exact hfill

theorem terminal_collect (exec : Nat → ParallelCmdResult) (cfg : OrchConfig) (s : OrchState)
    (hinv : OrchInv exec cfg s) (hterm : Terminal cfg s) :
    collect s = (List.range cfg.cmds.length).map exec := by
  have hslots : s.slots = (List.range cfg.cmds.length).map (fun i => some (exec i)) := by
    apply List.ext_getElem?
    intro j
    by_cases hj : j < cfg.cmds.length
    · have hdone := hinv.done j (by rw [hterm.1]; exact hj)
      rcases hdone with hrun | hfill
      · rw [hterm.2] at hrun
        exact absurd hrun (List.not_mem_nil j)
      · rw [hfill, List.getElem?_map, List.getElem?_range hj]
        rfl
    · have h1 : s.slots[j]? = none := by
        apply List.getElem?_eq_none
        rw [hinv.slots_len]
        omega
      have h2 : ((List.range cfg.cmds.length).map (fun i => some (exec i)))[j]? = none := by
        apply List.getElem?_eq_none
        simp only [List.length_map, List.length_range]
        omega
      rw [h1, h2]
  rw [collect, hslots, List.filterMap_map]
  exact congrFun (List.filterMap_eq_map exec) _

/-- C7 (spec-modelled): in every reachable state of the orchestrator at
most `max_concurrency` commands are running, and when the batch terminates
the collected result list has exactly one entry per submitted command, in
submission order — slot `i` holds the result of command `i` regardless of
the (arbitrary) completion interleaving — and building the
`ParallelCmdOutputObservation` from it preserves that list. -/
theorem orchestrator_bounded_and_ordered (cfg : OrchConfig) (exec : Nat → ParallelCmdResult)
    (hexec : ∀ i c, cfg.cmds[i]? = some c → (exec i).command = c)
    (s : OrchState) (hreach : Reach exec cfg s) :
    s.running.length ≤ cfg.max_concurrency ∧
    (Terminal cfg s →
      (collect s).length = cfg.cmds.length ∧
      (∀ i : Nat, i < cfg.cmds.length → (collect s)[i]? = some (exec i)) ∧
      (∀ (i : Nat) (c : PyStr), cfg.cmds[i]? = some c →
        ∃ r : ParallelCmdResult, (collect s)[i]? = some r ∧ r.command = c) ∧
      (∀ (content : PyStr) (h : Bool),
        (ParallelCmdOutputObservation.init content
          ((collect s).map ResultArg.result) h).results = collect s)) := by
  have hinv := reach_inv exec cfg s hreach
  refine ⟨hinv.run_le, fun hterm => ?_⟩
  have hc := terminal_collect exec cfg s hinv hterm
  have hget : ∀ i, i < cfg.cmds.length → (collect s)[i]? = some (exec i) := by
    intro i hi
    rw [hc, List.getElem?_map, List.getElem?_range hi]
    rfl
  refine ⟨by rw [hc]; simp, hget, ?_, ?_⟩
  · intro i c hci
    have hi : i < cfg.cmds.length := by
      by_contra hge
      rw [List.getElem?_eq_none (Nat.le_of_not_lt hge)] at hci
      exact Option.noConfusion hci
    exact ⟨exec i, hget i hi, hexec i c hci⟩
  · intro content h
    exact map_result_id (collect s)

theorem orchestrator_witness :
    (collect (OrchState.mk 2 [] [some (execW 0), some (execW 1)])).length = 2 ∧
    (collect (OrchState.mk 2 [] [some (execW 0), some (execW 1)]))[0]? = some (execW 0) ∧
    (collect (OrchState.mk 2 [] [some (execW 0), some (execW 1)]))[1]? = some (execW 1) := by
  have hexec : ∀ i c, cfgW.cmds[i]? = some c → (execW i).command = c := by
    intro i c hc
    match i with
    | 0 =>
      simp [cfgW] at hc
      subst hc
      rfl
    | 1 =>
      simp [cfgW] at hc
      subst hc
      rfl
    | n+2 => simp [cfgW] at hc
  have h1 : Reach execW cfgW (OrchState.mk 1 [0] [none, none]) :=
    Reach.step (initState cfgW) _ Reach.init
      (OrchStep.dispatch (initState cfgW) (by decide) (by decide))
  have h2 : Reach execW cfgW (OrchState.mk 1 [] [some (execW 0), none]) :=
    Reach.step (OrchState.mk 1 [0] [none, none]) _ h1
      (OrchStep.finish (OrchState.mk 1 [0] [none, none]) 0 (by decide))
  have h3 : Reach execW cfgW (OrchState.mk 2 [1] [some (execW 0), none]) :=
    Reach.step (OrchState.mk 1 [] [some (execW 0), none]) _ h2
      (OrchStep.dispatch (OrchState.mk 1 [] [some (execW 0), none]) (by decide) (by decide))
  have h4 : Reach execW cfgW (OrchState.mk 2 [] [some (execW 0), some (execW 1)]) :=
    Reach.step (OrchState.mk 2 [1] [some (execW 0), none]) _ h3
      (OrchStep.finish (OrchState.mk 2 [1] [some (execW 0), none]) 1 (by decide))
  have hmain := orchestrator_bounded_and_ordered cfgW execW hexec _ h4
  have hterm : Terminal cfgW (OrchState.mk 2 [] [some (execW 0), some (execW 1)]) := ⟨rfl, rfl⟩
  have hres := hmain.2 hterm
  exact ⟨hres.1, hres.2.1 0 (by decide), hres.2.1 1 (by decide)⟩
